import Mathlib

/-!
Shallow embedding of the iCount RNA-maps analysis core
(`iCount/analysis/rnamaps.py` and `iCount/plotting/plot_rnamap.py`).

Coordinates are modelled as the code sees them after pybedtools'
conversion: 0-based, half-open intervals.  Machine integers in the
Python source are unbounded, so `Int` is the faithful carrier.

The external `bedtools closest -s -t first -D a` call is embedded from
its documented semantics on the point features this pipeline feeds it
(crosslink sites and landmarks are both 1-bp intervals): the candidate
set is restricted to same-chromosome, same-strand landmarks, the
nearest by absolute coordinate difference is chosen (first wins on a
tie), and the reported distance is negative exactly when the landmark
is upstream of the site with respect to the site's strand.  When no
candidate exists, bedtools reports a null B record `. -1 ... -1`.
-/

namespace ICount

/-- One annotated genomic region as read from the regions file:
`seg.chrom`, `seg[2]` (the feature kind), `seg.start`/`seg.stop`
(0-based half-open) and `seg.strand`. -/
structure Region where
  chrom : String
  kind : String
  start : Int
  stop : Int
  strand : String
deriving DecidableEq, Repr

/-- `len(seg)` in pybedtools is `stop - start`. -/
def Region.len (r : Region) : Int := r.stop - r.start

/-- A BED6-style interval as emitted into the landmarks file
(name and score columns are the constant `'.'` and are omitted). -/
structure GenomicInterval where
  chrom : String
  start : Int
  stop : Int
  strand : String
deriving DecidableEq, Repr

/-- One entry of the `MAP_TYPES` configuration table (the plot-width
fields are not used by the analysis functions and are omitted). -/
structure MapConfig where
  upstream_type : List String
  upstream_size_limit : Int
  downstream_type : List String
  downstream_size_limit : Int
deriving DecidableEq, Repr

/-- The `MAP_TYPES` table of `rnamaps.py`. -/
def MAP_TYPES : List (String × MapConfig) :=
  [ ("exon-intron", ⟨["CDS", "UTR5"], 50, ["intron"], 150⟩)
  , ("intron-exon", ⟨["intron"], 150, ["CDS", "UTR3"], 50⟩)
  , ("gene-start", ⟨["intergenic"], 200, ["UTR5", "CDS"], 50⟩)
  , ("gene-end", ⟨["CDS", "UTR3"], 200, ["intergenic"], 200⟩)
  , ("translation-start", ⟨["UTR5"], 50, ["CDS"], 50⟩)
  , ("translation-end", ⟨["CDS"], 50, ["UTR3"], 200⟩)
  , ("noncoding-gene-start", ⟨["intergenic"], 200, ["ncRNA"], 100⟩)
  , ("noncoding-gene-end", ⟨["ncRNA"], 100, ["intergenic"], 200⟩) ]

/-- The body of the adjacent-pair scan in `make_landmarks_file`: the
interval appended to `intervals` for the sliding pair `(seg1, seg2)`
on the given strand, if any. -/
def pairLandmark (cfg : MapConfig) (strand : String) (seg1 seg2 : Region) :
    Option GenomicInterval :=
  if strand = "+" ∧ seg1.kind ∈ cfg.upstream_type ∧ seg2.kind ∈ cfg.downstream_type then
    if cfg.upstream_size_limit < seg1.len ∧ cfg.downstream_size_limit < seg2.len then
      some ⟨seg1.chrom, seg1.stop, seg1.stop + 1, strand⟩
    else none
  else if strand = "-" ∧ seg1.kind ∈ cfg.downstream_type ∧ seg2.kind ∈ cfg.upstream_type then
    if cfg.downstream_size_limit < seg1.len ∧ cfg.upstream_size_limit < seg2.len then
      some ⟨seg1.chrom, seg1.stop - 1, seg1.stop, strand⟩
    else none
  else none

/-- The per-strand loop of `make_landmarks_file`: `seg1` is the
`Option`-valued previous segment, a pair is considered only when both
segments share a chromosome, and `seg1 = seg2` after every step. -/
def scanStrand (cfg : MapConfig) (strand : String) :
    Option Region → List Region → List GenomicInterval
  | _, [] => []
  | none, seg2 :: rest => scanStrand cfg strand (some seg2) rest
  | some seg1, seg2 :: rest =>
    (if seg1.chrom = seg2.chrom then (pairLandmark cfg strand seg1 seg2).toList else [])
      ++ scanStrand cfg strand (some seg2) rest

/-- The order used by `bedtools sort`: chromosome name (byte-wise, i.e.
lexicographic string order) first, then start coordinate. -/
def intervalLE (a b : GenomicInterval) : Prop :=
  a.chrom < b.chrom ∨ (a.chrom = b.chrom ∧ a.start ≤ b.start)

instance : DecidableRel intervalLE := fun a b => by
  unfold intervalLE; infer_instance

instance : IsTotal GenomicInterval intervalLE :=
  ⟨fun a b => by
    unfold intervalLE
    rcases lt_trichotomy a.chrom b.chrom with h | h | h
    · exact Or.inl (Or.inl h)
    · rcases le_total a.start b.start with h2 | h2
      · exact Or.inl (Or.inr ⟨h, h2⟩)
      · exact Or.inr (Or.inr ⟨h.symm, h2⟩)
    · exact Or.inr (Or.inl h)⟩

instance : IsTrans GenomicInterval intervalLE :=
  ⟨fun a b c hab hbc => by
    unfold intervalLE at *
    rcases hab with h1 | ⟨h1, h1s⟩
    · rcases hbc with h2 | ⟨h2, _⟩
      · exact Or.inl (h1.trans h2)
      · exact Or.inl (h2 ▸ h1)
    · rcases hbc with h2 | ⟨h2, h2s⟩
      · exact Or.inl (h1 ▸ h2)
      · exact Or.inr ⟨h1.trans h2, h1s.trans h2s⟩⟩

/-- `make_landmarks_file` without the file I/O: scan both strands over
the strand-filtered region stream, then sort the collected intervals
as `bedtools sort` does.  (`BedTool.sort` performs no deduplication.) -/
def make_landmarks (regions : List Region) (cfg : MapConfig) : List GenomicInterval :=
  let intervals :=
    scanStrand cfg "+" none (regions.filter (fun r => r.strand = "+"))
      ++ scanStrand cfg "-" none (regions.filter (fun r => r.strand = "-"))
  List.insertionSort intervalLE intervals

/-- A crosslink site: a 1-bp BED6 interval `(chrom, pos, pos+1, '.',
score, strand)`, carried here as its point coordinate. -/
structure Site where
  chrom : String
  pos : Int
  score : Int
  strand : String
deriving DecidableEq, Repr

/-- Nearest-by-absolute-distance choice among candidate landmarks,
first candidate winning ties (`bedtools closest -t first` over the
sorted B file). -/
def pickClosest (pos : Int) (ls : List GenomicInterval) : Option GenomicInterval :=
  ls.foldl
    (fun best lm =>
      match best with
      | none => some lm
      | some b => if |lm.start - pos| < |b.start - pos| then some lm else some b)
    none

/-- The candidate restriction of `bedtools closest -s`: same
chromosome, same strand. -/
def closestFor (landmarks : List GenomicInterval) (site : Site) : Option GenomicInterval :=
  pickClosest site.pos
    (landmarks.filter (fun lm => lm.chrom = site.chrom ∧ lm.strand = site.strand))

/-- The signed distance column of `bedtools closest -D a` on 1-bp
features: magnitude is the absolute coordinate difference, and the
sign is negative exactly when the landmark is upstream of the site
relative to the site's strand (for `-` strand, "upstream" means the
landmark has the higher coordinate). -/
def bedtoolsDist (site : Site) (lm : GenomicInterval) : Int :=
  let mag := |lm.start - site.pos|
  let upstream : Bool := if site.strand = "-" then site.pos < lm.start else lm.start < site.pos
  if upstream then -mag else mag

/-- The fields of one merged `closest` output row that
`compute_distances` reads: `mseg[4]` (site score), `mseg[6]` (landmark
chromosome), `mseg[7]` (landmark start), `mseg[11]` (landmark strand)
and `mseg[-1]` (signed distance). -/
structure ClosestRow where
  siteScore : Int
  bchrom : String
  bpos : Int
  bstrand : String
  dist : Int
deriving DecidableEq, Repr

/-- The row `bedtools closest` emits for one site: the matched
landmark's fields, or the null record `('.', -1, '.', -1)` when no
same-chromosome same-strand landmark exists. -/
def closestRow (landmarks : List GenomicInterval) (site : Site) : ClosestRow :=
  match closestFor landmarks site with
  | none => ⟨site.score, ".", -1, ".", -1⟩
  | some lm => ⟨site.score, lm.chrom, lm.start, lm.strand, bedtoolsDist site lm⟩

/-- Python `dict` assignment `d[k] = v`: replace in place when the key
exists, append at the end otherwise. -/
def dictSet {α β : Type} [DecidableEq α] : List (α × β) → α → β → List (α × β)
  | [], k, v => [(k, v)]
  | (k1, v1) :: rest, k, v =>
    if k1 = k then (k, v) :: rest else (k1, v1) :: dictSet rest k v

/-- Python `d.get(k)` as an `Option`. -/
def dictFind {α β : Type} [DecidableEq α] (l : List (α × β)) (k : α) : Option β :=
  (l.find? (fun p => p.1 = k)).map Prod.snd

/-- Python `d.get(k, default)`. -/
def dictGetD {α β : Type} [DecidableEq α] (l : List (α × β)) (k : α) (d : β) : β :=
  (dictFind l k).getD d

/-- The distances dictionary: locus string to (distance to score). -/
abbrev DistTable := List (String × List (Int × Int))

/-- `'{}_{}_{}'.format(chrom, strand, pos)`. -/
def locString (chrom strand : String) (pos : Int) : String :=
  chrom ++ "_" ++ strand ++ "_" ++ toString pos

/-- The `continue` guard of the aggregation loop.  `'-' in pos` tests
the decimal string of the landmark start for a dash, which for a field
produced by bedtools holds exactly when the start is negative (the
null record's `-1`). -/
def skipRow (max_width : Int) (row : ClosestRow) : Prop :=
  max_width < |(-row.dist)| ∨ row.bchrom = "." ∨
    ¬(row.bstrand = "+" ∨ row.bstrand = "-") ∨ row.bpos < 0

instance : ∀ mw row, Decidable (skipRow mw row) := fun mw row => by
  unfold skipRow; infer_instance

/-- The running state of the aggregation loop. -/
structure DState where
  data : DistTable
  total : Int
deriving DecidableEq, Repr

/-- One iteration of the loop in `compute_distances`: the score is
added to `total_cdna` unconditionally, then the guard may skip the
bucket update `data.setdefault(loc, {})[distance] =
data.get(loc, {}).get(distance, 0) + score`. -/
def processRow (max_width : Int) (st : DState) (row : ClosestRow) : DState :=
  let distance := -row.dist
  let total := st.total + row.siteScore
  if skipRow max_width row then ⟨st.data, total⟩
  else
    let loc := locString row.bchrom row.bstrand row.bpos
    let inner := dictGetD st.data loc []
    ⟨dictSet st.data loc (dictSet inner distance (dictGetD inner distance 0 + row.siteScore)),
      total⟩

/-- `compute_distances` without the file I/O: run `closest` for every
site in order and fold the aggregation loop. -/
def compute_distances (landmarks : List GenomicInterval) (sites : List Site)
    (max_width : Int) : DistTable × Int :=
  let st := (sites.map (closestRow landmarks)).foldl (processRow max_width) ⟨[], 0⟩
  (st.data, st.total)

/-- Row order of the writer: `sorted(distances.items())` compares the
locus strings (dict keys are unique, so the values never take part). -/
def rowLE (a b : String × List (Int × Int)) : Prop := a.1 ≤ b.1

instance : DecidableRel rowLE := fun a b => by
  unfold rowLE; infer_instance

instance : IsTotal (String × List (Int × Int)) rowLE :=
  ⟨fun a b => le_total a.1 b.1⟩

instance : IsTrans (String × List (Int × Int)) rowLE :=
  ⟨fun _ _ _ hab hbc => le_trans hab hbc⟩

/-- Item order of the writer: `sorted(positions.items())` compares the
integer distances. -/
def itemLE (a b : Int × Int) : Prop := a.1 ≤ b.1

instance : DecidableRel itemLE := fun a b => by
  unfold itemLE; infer_instance

instance : IsTotal (Int × Int) itemLE := ⟨fun a b => le_total a.1 b.1⟩

instance : IsTrans (Int × Int) itemLE := ⟨fun _ _ _ hab hbc => le_trans hab hbc⟩

/-- `distances_to_file` without the text encoding: the file contents
as the header value plus the locus rows, rows sorted by locus and the
distance/score items of each row sorted by distance. -/
def distances_to_file (distances : DistTable) (total_cdna : Int) : Int × DistTable :=
  (total_cdna,
    (List.insertionSort rowLE distances).map
      (fun row => (row.1, List.insertionSort itemLE row.2)))

/-- `normalize_cpm` of `plot_rnamap.py`, on exact rationals. -/
def normalize_cpm (value total : ℚ) : ℚ := value / total * 10 ^ 6

/-- One step of the inner loop of `parse_results` over the items of a
row: in-range items are accumulated into `data` and mark the row as
contributing. -/
def parseItem (up_limit down_limit : Int) (acc : List (Int × Int) × Bool)
    (item : Int × Int) : List (Int × Int) × Bool :=
  if up_limit ≤ item.1 ∧ item.1 ≤ down_limit then
    (dictSet acc.1 item.1 (dictGetD acc.1 item.1 0 + item.2), true)
  else acc

/-- One row of the outer loop of `parse_results`: the row's items are
folded with a fresh `is_contributing` flag, and the landmark count is
incremented when the flag was set. -/
def parseRowStep (up_limit down_limit : Int) (acc : List (Int × Int) × Nat)
    (row : String × List (Int × Int)) : List (Int × Int) × Nat :=
  let res := row.2.foldl (parseItem up_limit down_limit) (acc.1, false)
  (res.1, acc.2 + if res.2 then 1 else 0)

/-- The raw (pre-normalization) part of `parse_results`: fold all rows,
counting the rows that contributed at least one in-range item. -/
def parseRaw (up_limit down_limit : Int) (rows : DistTable) : List (Int × Int) × Nat :=
  rows.foldl (parseRowStep up_limit down_limit) ([], 0)

/-- CPM normalization of one accumulated entry; Python's `/` raises
`ZeroDivisionError` when `total` is `0`, modelled as `none`. -/
def normalizeEntry (total : Int) (e : Int × Int) : Option (Int × ℚ) :=
  if total = 0 then none else some (e.1, normalize_cpm (e.2 : ℚ) (total : ℚ))

/-- The normalizing dict comprehension of `parse_results`: it runs once
per accumulated entry, so it divides (and can fail) only when there is
at least one entry. -/
def normalizeData (total : Int) : List (Int × Int) → Option (List (Int × ℚ))
  | [] => some []
  | e :: rest =>
    match normalizeEntry total e, normalizeData total rest with
    | some x, some xs => some (x :: xs)
    | _, _ => none

/-- `parse_results` on the structured file contents: parse the rows,
then CPM-normalize every accumulated entry. -/
def parse_results (file : Int × DistTable) (up_limit down_limit : Int) :
    Option (List (Int × ℚ) × Nat) :=
  let raw := parseRaw up_limit down_limit file.2
  (normalizeData file.1 raw.1).map (fun nd => (nd, raw.2))

/-- The key under which `processRow` buckets a closest-output row, if
the row passes the guard. -/
def rowKey (max_width : Int) (row : ClosestRow) : Option (String × Int) :=
  if skipRow max_width row then none
  else some (locString row.bchrom row.bstrand row.bpos, -row.dist)

/-- The accumulated score of one bucket of the distances dictionary. -/
def tableGet (d : DistTable) (loc : String) (dist : Int) : Int :=
  dictGetD (dictGetD d loc []) dist 0

/-- Total score a row's items carry at one distance. -/
def itemSumAt (items : List (Int × Int)) (pos : Int) : Int :=
  ((items.filter (fun p => p.1 = pos)).map Prod.snd).sum

/-- Total score the whole table carries at one distance, summed over
all loci. -/
def tableSumAt (d : DistTable) (pos : Int) : Int :=
  (d.map (fun row => itemSumAt row.2 pos)).sum

/-- Total score of the in-range items at one distance. -/
def inRangeSumAt (up_limit down_limit pos : Int) (items : List (Int × Int)) : Int :=
  ((items.filter (fun p => (up_limit ≤ p.1 ∧ p.1 ≤ down_limit) ∧ p.1 = pos)).map Prod.snd).sum

/-- The `exon-intron` entry of `MAP_TYPES`. -/
def exonIntronCfg : MapConfig := ⟨["CDS", "UTR5"], 50, ["intron"], 150⟩

/-- The landmark fixture of `TestComputeDistances.setUp`. -/
def setupLandmarks : List GenomicInterval :=
  [⟨"chr1", 10, 11, "+"⟩, ⟨"chr1", 20, 21, "+"⟩, ⟨"chr1", 20, 21, "-"⟩, ⟨"chr2", 10, 11, "+"⟩]

/-- The `+`-strand region fixture of `TestMakeLandmarksFile.test_basic`
(`CDS 150..200`, `intron 201..351` in the 1-based input, i.e.
`[149,200)` and `[200,351)` after pybedtools' conversion). -/
def basicRegions : List Region :=
  [⟨"chr1", "CDS", 149, 200, "+"⟩, ⟨"chr1", "intron", 200, 351, "+"⟩]

/-- The `test_basic` pair repeated twice in one region stream: the
same junction is emitted twice and `bedtools sort` keeps both. -/
def dupRegions : List Region :=
  basicRegions ++ basicRegions


theorem dictFind_dictSet {α β : Type} [DecidableEq α] (l : List (α × β)) (k k' : α) (v : β) :
    dictFind (dictSet l k v) k' = if k' = k then some v else dictFind l k' := by
  induction l with
  | nil =>
    by_cases h : k' = k
    · subst h; simp [dictSet, dictFind, List.find?]
    · simp [dictSet, dictFind, List.find?, h, Ne.symm h]
  | cons p rest ih =>
    obtain ⟨k1, v1⟩ := p
    by_cases h1 : k1 = k
    · subst h1
      by_cases h : k' = k1 <;> simp [dictSet, dictFind, List.find?, h, eq_comm]
    · by_cases h2 : k1 = k'
      · subst h2
        simp [dictSet, dictFind, List.find?, h1, Ne.symm h1]
      · simp only [dictSet, if_neg h1]
        by_cases h : k' = k <;>
          simp_all [dictFind, List.find?, h2, Ne.symm h2]

theorem dictGetD_dictSet {α β : Type} [DecidableEq α] (l : List (α × β)) (k k' : α) (v d : β) :
    dictGetD (dictSet l k v) k' d = if k' = k then v else dictGetD l k' d := by
  unfold dictGetD
  rw [dictFind_dictSet]
  by_cases h : k' = k <;> simp [h]

theorem dictSet_ne_nil {α β : Type} [DecidableEq α] (l : List (α × β)) (k : α) (v : β) :
    dictSet l k v ≠ [] := by
  cases l with
  | nil => simp [dictSet]
  | cons p rest =>
    obtain ⟨k1, v1⟩ := p
    by_cases h : k1 = k <;> simp [dictSet, h]

theorem closestRow_siteScore (landmarks : List GenomicInterval) (site : Site) :
    (closestRow landmarks site).siteScore = site.score := by
  unfold closestRow
  cases closestFor landmarks site <;> rfl

/-- C6: the distance-aggregation fixture: landmarks at `chr1:+:10`,
`chr1:+:20`, `chr1:-:20`, `chr2:+:10` and a single `+`-strand site at
`chr1:12` with score 3 yield, at `max_width = 10`, `total_cdna = 3`
and exactly the bucket `chr1_+_10 -> (2 -> 3)`. -/
theorem basic_aggregation :
    compute_distances setupLandmarks [⟨"chr1", 12, 3, "+"⟩] 10 =
      ([("chr1_+_10", [(2, 3)])], 3) := by
  decide


theorem neg_bedtoolsDist_plus (site : Site) (lm : GenomicInterval) (hs : site.strand = "+") :
    -(bedtoolsDist site lm) = site.pos - lm.start := by
  rcases lt_or_le lm.start site.pos with hlt | hle
  · simp [bedtoolsDist, hs, hlt, abs_of_neg (show lm.start - site.pos < 0 by omega)]
  · simp [bedtoolsDist, hs, not_lt.mpr hle,
      abs_of_nonneg (show (0 : Int) ≤ lm.start - site.pos by omega)]

theorem neg_bedtoolsDist_minus (site : Site) (lm : GenomicInterval) (hs : site.strand = "-") :
    -(bedtoolsDist site lm) = lm.start - site.pos := by
  rcases lt_or_le site.pos lm.start with hlt | hle
  · simp [bedtoolsDist, hs, hlt,
      abs_of_nonneg (show (0 : Int) ≤ lm.start - site.pos by omega)]
  · simp [bedtoolsDist, hs, not_lt.mpr hle,
      abs_of_nonpos (show lm.start - site.pos ≤ 0 by omega)]

/-- C2: when a site is matched to a landmark, the distance recorded by
the aggregation loop (`-mseg[-1]`) equals site position minus landmark
position on the `+` strand and landmark position minus site position
on the `-` strand, so a positive value always means the site lies
downstream of the landmark in transcription direction. -/
theorem signed_distance (landmarks : List GenomicInterval) (site : Site)
    (lm : GenomicInterval) (h : closestFor landmarks site = some lm) :
    (site.strand = "+" → -((closestRow landmarks site).dist) = site.pos - lm.start) ∧
    (site.strand = "-" → -((closestRow landmarks site).dist) = lm.start - site.pos) := by
  have hrow : (closestRow landmarks site).dist = bedtoolsDist site lm := by
    unfold closestRow; rw [h]
  rw [hrow]
  exact ⟨neg_bedtoolsDist_plus site lm, neg_bedtoolsDist_minus site lm⟩

theorem signed_distance_witness :
    -((closestRow setupLandmarks ⟨"chr1", 12, 3, "+"⟩).dist) = (12 : Int) - 10 :=
  (signed_distance setupLandmarks ⟨"chr1", 12, 3, "+"⟩ ⟨"chr1", 10, 11, "+"⟩ (by decide)).1 rfl

/-- C5: the length test against the configured minimum is strict: a
sliding pair in which either region's length exactly equals the
minimum configured for its role emits no landmark. -/
theorem strict_length_boundary (cfg : MapConfig) (strand : String) (seg1 seg2 : Region)
    (h : (strand = "+" ∧
            (seg1.len = cfg.upstream_size_limit ∨ seg2.len = cfg.downstream_size_limit)) ∨
         (strand = "-" ∧
            (seg1.len = cfg.downstream_size_limit ∨ seg2.len = cfg.upstream_size_limit))) :
    pairLandmark cfg strand seg1 seg2 = none := by
  unfold pairLandmark
  rcases h with ⟨hs, hlen⟩ | ⟨hs, hlen⟩ <;> subst hs <;>
    split_ifs with h1 h2 h3 h4 <;>
      first
        | rfl
        | (exfalso; rcases hlen with he | he <;> omega)
        | simp_all

theorem strict_length_boundary_witness :
    pairLandmark exonIntronCfg "+"
      ⟨"chr1", "CDS", 150, 200, "+"⟩ ⟨"chr1", "intron", 200, 400, "+"⟩ = none :=
  strict_length_boundary exonIntronCfg "+"
    ⟨"chr1", "CDS", 150, 200, "+"⟩ ⟨"chr1", "intron", 200, 400, "+"⟩
    (Or.inl ⟨rfl, Or.inl (by decide)⟩)

/-- C3 counterexample: for the fixture landmarks (none of which lie on
`chrX`) and the single site `chrX:22:+` with score 3, the aggregate
result is `total_cdna = 3`, not `0`: the site does contribute to
`total_cdna` although no landmark exists on its chromosome/strand. -/
theorem no_landmark_cx :
    setupLandmarks.filter (fun lm => lm.chrom = "chrX" ∧ lm.strand = "+") = [] ∧
    compute_distances setupLandmarks [⟨"chrX", 22, 3, "+"⟩] 10 = ([], 3) := by
  decide

/-- C3 (amended): a site on a chromosome/strand combination with no
landmark anywhere is reported by `closest` as a null match, so its
score is added to `total_cdna` while no locus bucket changes. -/
theorem no_landmark_row (landmarks : List GenomicInterval) (site : Site)
    (max_width : Int) (st : DState)
    (hnone : landmarks.filter
      (fun lm => lm.chrom = site.chrom ∧ lm.strand = site.strand) = []) :
    processRow max_width st (closestRow landmarks site) = ⟨st.data, st.total + site.score⟩ := by
  have hcf : closestFor landmarks site = none := by
    unfold closestFor; rw [hnone]; rfl
  have hrow : closestRow landmarks site = ⟨site.score, ".", -1, ".", -1⟩ := by
    unfold closestRow; rw [hcf]
  have hskip : skipRow max_width (⟨site.score, ".", -1, ".", -1⟩ : ClosestRow) := by
    unfold skipRow
    exact Or.inr (Or.inl rfl)
  rw [hrow]
  unfold processRow
  rw [if_pos hskip]

theorem no_landmark_row_witness :
    processRow 10 ⟨[], 0⟩ (closestRow setupLandmarks ⟨"chrX", 22, 3, "+"⟩) = ⟨[], 0 + 3⟩ :=
  no_landmark_row setupLandmarks ⟨"chrX", 22, 3, "+"⟩ 10 ⟨[], 0⟩ (by decide)

/-- C7: a site whose nearest same-chromosome same-strand landmark lies
farther than `max_width` still adds its score to `total_cdna`, but the
distance table is left unchanged. -/
theorem max_width_exclusion (landmarks : List GenomicInterval) (site : Site)
    (max_width : Int) (st : DState) (lm : GenomicInterval)
    (hfound : closestFor landmarks site = some lm)
    (hfar : max_width < |bedtoolsDist site lm|) :
    processRow max_width st (closestRow landmarks site) = ⟨st.data, st.total + site.score⟩ := by
  have hrow : closestRow landmarks site =
      ⟨site.score, lm.chrom, lm.start, lm.strand, bedtoolsDist site lm⟩ := by
    unfold closestRow; rw [hfound]
  have hskip : skipRow max_width
      (⟨site.score, lm.chrom, lm.start, lm.strand, bedtoolsDist site lm⟩ : ClosestRow) := by
    unfold skipRow
    left
    simpa [abs_neg] using hfar
  rw [hrow]
  unfold processRow
  rw [if_pos hskip]

theorem max_width_exclusion_witness :
    processRow 10 ⟨[], 0⟩ (closestRow setupLandmarks ⟨"chr2", 32, 1, "+"⟩) = ⟨[], 0 + 1⟩ :=
  max_width_exclusion setupLandmarks ⟨"chr2", 32, 1, "+"⟩ 10 ⟨[], 0⟩ ⟨"chr2", 10, 11, "+"⟩
    (by decide) (by decide)


theorem mem_scanStrand_cons (cfg : MapConfig) (strand : String) (prev curr : Region)
    (l2 : List Region) (iv : GenomicInterval)
    (hc : prev.chrom = curr.chrom) (hp : pairLandmark cfg strand prev curr = some iv) :
    iv ∈ scanStrand cfg strand (some prev) (curr :: l2) := by
  unfold scanStrand
  rw [if_pos hc, hp]
  simp

theorem mem_scanStrand (cfg : MapConfig) (strand : String) (l1 : List Region)
    (acc : Option Region) (prev curr : Region) (l2 : List Region) (iv : GenomicInterval)
    (hc : prev.chrom = curr.chrom) (hp : pairLandmark cfg strand prev curr = some iv) :
    iv ∈ scanStrand cfg strand acc (l1 ++ prev :: curr :: l2) := by
  induction l1 generalizing acc with
  | nil =>
    cases acc with
    | none => exact mem_scanStrand_cons cfg strand prev curr l2 iv hc hp
    | some a =>
      show iv ∈ scanStrand cfg strand (some a) (prev :: curr :: l2)
      unfold scanStrand
      exact List.mem_append_right _ (mem_scanStrand_cons cfg strand prev curr l2 iv hc hp)
  | cons x rest ih =>
    cases acc with
    | none =>
      show iv ∈ scanStrand cfg strand (some x) (rest ++ prev :: curr :: l2)
      exact ih (some x)
    | some a =>
      show iv ∈ scanStrand cfg strand (some a) (x :: (rest ++ prev :: curr :: l2))
      unfold scanStrand
      exact List.mem_append_right _ (ih (some x))

/-- C1: every same-chromosome adjacent pair of the strand-filtered
region stream whose kinds and strict length constraints match emits a
landmark into the final list: at `prev.stop` on the `+` strand, and at
`prev.stop - 1` on the `-` strand with the upstream and downstream
roles swapped. -/
theorem landmark_positions (cfg : MapConfig) (regions l1 l2 : List Region)
    (prev curr : Region) :
    ((regions.filter (fun r => r.strand = "+") = l1 ++ prev :: curr :: l2) →
      prev.chrom = curr.chrom →
      prev.kind ∈ cfg.upstream_type → curr.kind ∈ cfg.downstream_type →
      cfg.upstream_size_limit < prev.len → cfg.downstream_size_limit < curr.len →
      (⟨prev.chrom, prev.stop, prev.stop + 1, "+"⟩ : GenomicInterval) ∈
        make_landmarks regions cfg) ∧
    ((regions.filter (fun r => r.strand = "-") = l1 ++ prev :: curr :: l2) →
      prev.chrom = curr.chrom →
      prev.kind ∈ cfg.downstream_type → curr.kind ∈ cfg.upstream_type →
      cfg.downstream_size_limit < prev.len → cfg.upstream_size_limit < curr.len →
      (⟨prev.chrom, prev.stop - 1, prev.stop, "-"⟩ : GenomicInterval) ∈
        make_landmarks regions cfg) := by
  constructor
  · intro hf hc hk1 hk2 hl1 hl2
    simp only [make_landmarks, List.mem_insertionSort, List.mem_append]
    left
    rw [hf]
    apply mem_scanStrand cfg "+" l1 none prev curr l2 _ hc
    unfold pairLandmark
    rw [if_pos ⟨rfl, hk1, hk2⟩, if_pos ⟨hl1, hl2⟩]
  · intro hf hc hk1 hk2 hl1 hl2
    simp only [make_landmarks, List.mem_insertionSort, List.mem_append]
    right
    rw [hf]
    apply mem_scanStrand cfg "-" l1 none prev curr l2 _ hc
    unfold pairLandmark
    rw [if_neg (fun h => absurd h.1 (by decide)), if_pos ⟨rfl, hk1, hk2⟩,
      if_pos ⟨hl1, hl2⟩]

theorem landmark_positions_witness :
    (⟨"chr1", 200, 201, "+"⟩ : GenomicInterval) ∈ make_landmarks basicRegions exonIntronCfg :=
  (landmark_positions exonIntronCfg basicRegions [] []
      ⟨"chr1", "CDS", 149, 200, "+"⟩ ⟨"chr1", "intron", 200, 351, "+"⟩).1
    (by decide) rfl (by decide) (by decide) (by decide) (by decide)

/-- C4 counterexample: repeating the matching `test_basic` pair in the
region stream makes `make_landmarks` return the same landmark twice:
`bedtools sort` orders but never deduplicates, so two entries of the
result share the same exact coordinates. -/
theorem landmarks_dedup_cx :
    ¬ (make_landmarks dupRegions exonIntronCfg).Pairwise
        (fun a b => ¬(a.chrom = b.chrom ∧ a.start = b.start ∧ a.stop = b.stop)) := by
  have hsymm : ∀ {x y : GenomicInterval},
      (fun a b => ¬(a.chrom = b.chrom ∧ a.start = b.start ∧ a.stop = b.stop)) x y →
      (fun a b => ¬(a.chrom = b.chrom ∧ a.start = b.start ∧ a.stop = b.stop)) y x :=
    fun h hc => h ⟨hc.1.symm, hc.2.1.symm, hc.2.2.symm⟩
  unfold make_landmarks
  rw [List.Perm.pairwise_iff hsymm (List.perm_insertionSort intervalLE _)]
  decide

/-- C4 (amended): the sequence returned by `make_landmarks` is sorted
by chromosome then position, but it is not deduplicated: exact
coordinate duplicates in the emitted stream are kept. -/
theorem make_landmarks_sorted (regions : List Region) (cfg : MapConfig) :
    List.Sorted intervalLE (make_landmarks regions cfg) :=
  List.sorted_insertionSort intervalLE _


theorem tableGet_nil (loc : String) (dist : Int) : tableGet [] loc dist = 0 := rfl

theorem tableGet_processRow (mw : Int) (st : DState) (row : ClosestRow)
    (loc : String) (dist : Int) :
    tableGet (processRow mw st row).data loc dist =
      tableGet st.data loc dist +
        (if rowKey mw row = some (loc, dist) then row.siteScore else 0) := by
  unfold processRow rowKey
  by_cases hskip : skipRow mw row
  · rw [if_pos hskip, if_pos hskip]
    simp
  · rw [if_neg hskip, if_neg hskip]
    simp only [tableGet, dictGetD_dictSet]
    by_cases hl : loc = locString row.bchrom row.bstrand row.bpos
    · rw [if_pos hl, dictGetD_dictSet]
      by_cases hd : dist = -row.dist
      · rw [if_pos hd,
          if_pos (show some (locString row.bchrom row.bstrand row.bpos, -row.dist) =
            some (loc, dist) by rw [hl, hd])]
        conv_rhs => rw [hl, hd]
      · rw [if_neg hd,
          if_neg (show ¬some (locString row.bchrom row.bstrand row.bpos, -row.dist) =
              some (loc, dist) from
            fun h => hd (by injection h with h2; exact (congrArg Prod.snd h2).symm))]
        conv_rhs => rw [hl]
        simp
    · rw [if_neg hl,
        if_neg (show ¬some (locString row.bchrom row.bstrand row.bpos, -row.dist) =
            some (loc, dist) from
          fun h => hl (by injection h with h2; exact (congrArg Prod.fst h2).symm))]
      simp

theorem tableGet_foldl (mw : Int) (rows : List ClosestRow) (st : DState)
    (loc : String) (dist : Int) :
    tableGet ((rows.foldl (processRow mw) st).data) loc dist =
      tableGet st.data loc dist +
        ((rows.filter (fun r => rowKey mw r = some (loc, dist))).map
          ClosestRow.siteScore).sum := by
  induction rows generalizing st with
  | nil => simp
  | cons r rest ih =>
    rw [List.foldl_cons, ih, tableGet_processRow]
    by_cases h : rowKey mw r = some (loc, dist)
    · rw [if_pos h, List.filter_cons_of_pos (by simpa using h), List.map_cons,
        List.sum_cons]
      omega
    · rw [if_neg h, List.filter_cons_of_neg (by simpa using h)]
      omega

/-- C8: two sites whose closest-landmark rows bucket under the same
locus at the same signed distance accumulate additively: the resulting
bucket holds the sum of their scores. -/
theorem score_summation (landmarks : List GenomicInterval) (max_width : Int)
    (s1 s2 : Site) (loc : String) (dist : Int)
    (h1 : rowKey max_width (closestRow landmarks s1) = some (loc, dist))
    (h2 : rowKey max_width (closestRow landmarks s2) = some (loc, dist)) :
    tableGet (compute_distances landmarks [s1, s2] max_width).1 loc dist =
      s1.score + s2.score := by
  unfold compute_distances
  simp only [List.map_cons, List.map_nil]
  rw [tableGet_foldl]
  simp [h1, h2, closestRow_siteScore, tableGet_nil]

theorem score_summation_witness :
    tableGet (compute_distances setupLandmarks
        [⟨"chr1", 12, 3, "+"⟩, ⟨"chr1", 12, 1, "+"⟩] 10).1 "chr1_+_10" 2 = 3 + 1 :=
  score_summation setupLandmarks 10 ⟨"chr1", 12, 3, "+"⟩ ⟨"chr1", 12, 1, "+"⟩
    "chr1_+_10" 2 (by decide) (by decide)


theorem dictGetD_cons {α β : Type} [DecidableEq α] (k : α) (v : β) (rest : List (α × β))
    (k' : α) (d : β) :
    dictGetD ((k, v) :: rest) k' d = if k = k' then v else dictGetD rest k' d := by
  by_cases h : k = k' <;> simp [dictGetD, dictFind, List.find?, h]

theorem parseItem_getD (u d : Int) (acc : List (Int × Int) × Bool) (item : Int × Int)
    (pos : Int) :
    dictGetD (parseItem u d acc item).1 pos 0 =
      dictGetD acc.1 pos 0 +
        (if (u ≤ item.1 ∧ item.1 ≤ d) ∧ item.1 = pos then item.2 else 0) := by
  unfold parseItem
  by_cases hin : u ≤ item.1 ∧ item.1 ≤ d
  · rw [if_pos hin]
    simp only [dictGetD_dictSet]
    by_cases hp : pos = item.1
    · rw [if_pos hp, if_pos ⟨hin, hp.symm⟩, hp]
    · rw [if_neg hp, if_neg (fun hc => hp hc.2.symm)]
      simp
  · rw [if_neg hin, if_neg (fun hc => hin hc.1)]
    simp

theorem foldItems_getD (u d : Int) (items : List (Int × Int))
    (acc : List (Int × Int) × Bool) (pos : Int) :
    dictGetD (items.foldl (parseItem u d) acc).1 pos 0 =
      dictGetD acc.1 pos 0 + inRangeSumAt u d pos items := by
  induction items generalizing acc with
  | nil => simp [inRangeSumAt]
  | cons it rest ih =>
    rw [List.foldl_cons, ih, parseItem_getD]
    unfold inRangeSumAt
    by_cases h : (u ≤ it.1 ∧ it.1 ≤ d) ∧ it.1 = pos
    · rw [List.filter_cons_of_pos (by simpa using h), List.map_cons, List.sum_cons,
        if_pos h]
      omega
    · rw [List.filter_cons_of_neg (by simpa using h), if_neg h]
      omega

theorem foldItems_flag (u d : Int) (items : List (Int × Int))
    (acc : List (Int × Int) × Bool) :
    (items.foldl (parseItem u d) acc).2 =
      (acc.2 || items.any (fun p => decide (u ≤ p.1 ∧ p.1 ≤ d))) := by
  induction items generalizing acc with
  | nil => simp
  | cons it rest ih =>
    rw [List.foldl_cons, ih]
    unfold parseItem
    by_cases h : u ≤ it.1 ∧ it.1 ≤ d
    · rw [if_pos h]
      simp [h]
    · rw [if_neg h]
      rcases not_and_or.mp h with h1 | h1 <;> simp [h1]

theorem foldItems_nil_iff (u d : Int) (items : List (Int × Int))
    (acc : List (Int × Int) × Bool) :
    (items.foldl (parseItem u d) acc).1 = [] ↔
      (acc.1 = [] ∧ ∀ p ∈ items, ¬(u ≤ p.1 ∧ p.1 ≤ d)) := by
  induction items generalizing acc with
  | nil => simp
  | cons it rest ih =>
    rw [List.foldl_cons, ih]
    unfold parseItem
    by_cases h : u ≤ it.1 ∧ it.1 ≤ d
    · rw [if_pos h]
      simp [dictSet_ne_nil, List.forall_mem_cons, h]
    · rw [if_neg h]
      constructor
      · rintro ⟨h1, h2⟩
        exact ⟨h1, List.forall_mem_cons.mpr ⟨h, h2⟩⟩
      · rintro ⟨h1, h2⟩
        exact ⟨h1, (List.forall_mem_cons.mp h2).2⟩

theorem foldRows_getD (u d : Int) (rows : DistTable) (acc : List (Int × Int) × Nat)
    (pos : Int) :
    dictGetD ((rows.foldl (parseRowStep u d) acc).1) pos 0 =
      dictGetD acc.1 pos 0 + (rows.map (fun row => inRangeSumAt u d pos row.2)).sum := by
  induction rows generalizing acc with
  | nil => simp
  | cons row rest ih =>
    rw [List.foldl_cons, ih]
    have hstep : (parseRowStep u d acc row).1 =
        (row.2.foldl (parseItem u d) (acc.1, false)).1 := rfl
    rw [hstep, foldItems_getD, List.map_cons, List.sum_cons]
    dsimp only
    omega

theorem foldRows_count (u d : Int) (rows : DistTable) (acc : List (Int × Int) × Nat) :
    (rows.foldl (parseRowStep u d) acc).2 =
      acc.2 + rows.countP (fun row => row.2.any (fun p => decide (u ≤ p.1 ∧ p.1 ≤ d))) := by
  induction rows generalizing acc with
  | nil => simp
  | cons row rest ih =>
    rw [List.foldl_cons, ih]
    have hstep : (parseRowStep u d acc row).2 =
        acc.2 + (if (row.2.foldl (parseItem u d) (acc.1, false)).2 then 1 else 0) := rfl
    rw [hstep, foldItems_flag, List.countP_cons]
    simp only [Bool.false_or]
    by_cases h : row.2.any (fun p => decide (u ≤ p.1 ∧ p.1 ≤ d)) = true
    · simp only [h, if_true]
      omega
    · simp only [Bool.not_eq_true] at h
      simp only [h, if_false]
      omega

theorem foldRows_nil_iff (u d : Int) (rows : DistTable) (acc : List (Int × Int) × Nat) :
    (rows.foldl (parseRowStep u d) acc).1 = [] ↔
      (acc.1 = [] ∧ ∀ row ∈ rows, ∀ p ∈ row.2, ¬(u ≤ p.1 ∧ p.1 ≤ d)) := by
  induction rows generalizing acc with
  | nil => simp
  | cons row rest ih =>
    rw [List.foldl_cons, ih]
    have hstep : (parseRowStep u d acc row).1 =
        (row.2.foldl (parseItem u d) (acc.1, false)).1 := rfl
    rw [hstep, foldItems_nil_iff]
    simp only [List.forall_mem_cons]
    tauto

theorem normalizeData_some (total : Int) (hT : total ≠ 0) (l : List (Int × Int)) :
    normalizeData total l =
      some (l.map (fun e => (e.1, normalize_cpm (e.2 : ℚ) (total : ℚ)))) := by
  induction l with
  | nil => rfl
  | cons e rest ih => simp [normalizeData, normalizeEntry, hT, ih]

theorem normalizeData_zero_none (l : List (Int × Int)) (hne : l ≠ []) :
    normalizeData 0 l = none := by
  cases l with
  | nil => exact absurd rfl hne
  | cons e rest => simp [normalizeData, normalizeEntry]

theorem dictGetD_map_normalize (total : Int) (l : List (Int × Int)) (pos : Int) :
    dictGetD (l.map (fun e => (e.1, normalize_cpm (e.2 : ℚ) (total : ℚ)))) pos 0 =
      normalize_cpm ((dictGetD l pos 0 : Int) : ℚ) (total : ℚ) := by
  induction l with
  | nil => simp [dictGetD, dictFind, normalize_cpm]
  | cons e rest ih =>
    obtain ⟨k, v⟩ := e
    rw [List.map_cons]
    dsimp only
    rw [dictGetD_cons, dictGetD_cons]
    by_cases h : k = pos
    · rw [if_pos h, if_pos h]
    · rw [if_neg h, if_neg h, ih]

theorem inRangeSumAt_perm (u d pos : Int) {items1 items2 : List (Int × Int)}
    (h : items1.Perm items2) :
    inRangeSumAt u d pos items1 = inRangeSumAt u d pos items2 :=
  ((h.filter _).map _).sum_eq

theorem writtenSum (u d pos : Int) (dd : DistTable) (T : Int) :
    ((distances_to_file dd T).2.map (fun row => inRangeSumAt u d pos row.2)).sum =
      (dd.map (fun row => inRangeSumAt u d pos row.2)).sum := by
  unfold distances_to_file
  dsimp only
  rw [List.map_map]
  have hinner : ((List.insertionSort rowLE dd).map
      ((fun row : String × List (Int × Int) => inRangeSumAt u d pos row.2) ∘
        (fun row : String × List (Int × Int) =>
          (row.1, List.insertionSort itemLE row.2)))) =
      ((List.insertionSort rowLE dd).map
        (fun row : String × List (Int × Int) => inRangeSumAt u d pos row.2)) :=
    List.map_congr_left (fun a _ =>
      inRangeSumAt_perm u d pos (List.perm_insertionSort itemLE a.2))
  rw [hinner]
  exact ((List.perm_insertionSort rowLE dd).map _).sum_eq

theorem writtenCount (u d : Int) (dd : DistTable) (T : Int) :
    (distances_to_file dd T).2.countP
        (fun row => row.2.any (fun p => decide (u ≤ p.1 ∧ p.1 ≤ d))) =
      dd.countP (fun row => row.2.any (fun p => decide (u ≤ p.1 ∧ p.1 ≤ d))) := by
  unfold distances_to_file
  rw [List.countP_map]
  rw [List.countP_congr (fun a _ => by
    show ((List.insertionSort itemLE a.2).any fun p => decide (u ≤ p.1 ∧ p.1 ≤ d)) = true ↔
      (a.2.any fun p => decide (u ≤ p.1 ∧ p.1 ≤ d)) = true
    simp only [List.any_eq_true, List.mem_insertionSort])]
  exact (List.perm_insertionSort rowLE dd).countP_eq _

theorem tableSum_of_enclosed (u d pos : Int) (dd : DistTable)
    (henc : ∀ row ∈ dd, ∀ p ∈ row.2, u ≤ p.1 ∧ p.1 ≤ d) :
    (dd.map (fun row => inRangeSumAt u d pos row.2)).sum = tableSumAt dd pos := by
  unfold tableSumAt
  refine congrArg List.sum (List.map_congr_left ?_)
  intro row hrow
  unfold inRangeSumAt itemSumAt
  refine congrArg List.sum (congrArg (List.map Prod.snd) (List.filter_congr ?_))
  intro p hp
  have h := henc row hrow p hp
  simp [h.1, h.2]

theorem countP_of_enclosed (u d : Int) (dd : DistTable)
    (henc : ∀ row ∈ dd, ∀ p ∈ row.2, u ≤ p.1 ∧ p.1 ≤ d) :
    dd.countP (fun row => row.2.any (fun p => decide (u ≤ p.1 ∧ p.1 ≤ d))) =
      dd.countP (fun row => !row.2.isEmpty) := by
  apply List.countP_congr
  intro row hrow
  cases hrs : row.2 with
  | nil => simp [hrs]
  | cons p rest =>
    have h := henc row hrow p (by rw [hrs]; exact List.mem_cons_self _ _)
    simp [hrs, h.1, h.2]


/-- C9: writing a distance table whose recorded distances all lie
inside `[up_limit, down_limit]` and re-parsing it recovers, at every
distance, the CPM-normalized sum over all loci of the written scores
at that distance, together with the count of loci that contributed at
least one in-range record. -/
theorem roundtrip (d : DistTable) (T up_limit down_limit : Int)
    (hT : T ≠ 0)
    (henc : ∀ row ∈ d, ∀ p ∈ row.2, up_limit ≤ p.1 ∧ p.1 ≤ down_limit) :
    ∃ ndata cnt,
      parse_results (distances_to_file d T) up_limit down_limit = some (ndata, cnt) ∧
      (∀ pos, dictGetD ndata pos 0 =
        normalize_cpm ((tableSumAt d pos : Int) : ℚ) ((T : Int) : ℚ)) ∧
      cnt = d.countP (fun row => !row.2.isEmpty) := by
  have hraw : ∀ pos,
      dictGetD (parseRaw up_limit down_limit (distances_to_file d T).2).1 pos 0 =
        tableSumAt d pos := by
    intro pos
    unfold parseRaw
    rw [foldRows_getD, writtenSum, tableSum_of_enclosed _ _ _ _ henc]
    simp [dictGetD, dictFind]
  have hcnt : (parseRaw up_limit down_limit (distances_to_file d T).2).2 =
      d.countP (fun row => !row.2.isEmpty) := by
    unfold parseRaw
    rw [foldRows_count, writtenCount, countP_of_enclosed _ _ _ henc]
    simp
  refine ⟨(parseRaw up_limit down_limit (distances_to_file d T).2).1.map
      (fun e => (e.1, normalize_cpm (e.2 : ℚ) (T : ℚ))),
    (parseRaw up_limit down_limit (distances_to_file d T).2).2, ?_, ?_, hcnt⟩
  · unfold parse_results
    dsimp only
    rw [show (distances_to_file d T).1 = T from rfl]
    rw [normalizeData_some T hT]
    rfl
  · intro pos
    rw [dictGetD_map_normalize, hraw pos]

theorem roundtrip_witness :
    ∃ ndata cnt,
      parse_results (distances_to_file
          [("chr1_+_10", [(2, 3)]), ("chr2_+_20", [(-3, 3), (1, 5)])] 11) (-10) 10 =
        some (ndata, cnt) ∧
      (∀ pos, dictGetD ndata pos 0 =
        normalize_cpm
          ((tableSumAt [("chr1_+_10", [(2, 3)]), ("chr2_+_20", [(-3, 3), (1, 5)])] pos :
            Int) : ℚ) ((11 : Int) : ℚ)) ∧
      cnt = ([("chr1_+_10", [(2, 3)]), ("chr2_+_20", [(-3, 3), (1, 5)])] :
        DistTable).countP (fun row => !row.2.isEmpty) :=
  roundtrip [("chr1_+_10", [(2, 3)]), ("chr2_+_20", [(-3, 3), (1, 5)])] 11 (-10) 10
    (by decide) (by decide)

/-- C10: the reader's CPM normalization has no zero guard: parsing
succeeds whenever the header total is nonzero, and with a zero total
it reaches the division error exactly when at least one record lies
inside `[up_limit, down_limit]`. -/
theorem cpm_zero_guard (rows : DistTable) (up_limit down_limit : Int) :
    (∀ T : Int, T ≠ 0 → (parse_results (T, rows) up_limit down_limit).isSome) ∧
    (parse_results (0, rows) up_limit down_limit = none ↔
      ∃ row ∈ rows, ∃ p ∈ row.2, up_limit ≤ p.1 ∧ p.1 ≤ down_limit) := by
  constructor
  · intro T hT
    unfold parse_results
    dsimp only
    rw [normalizeData_some T hT]
    rfl
  · unfold parse_results
    dsimp only
    constructor
    · intro h
      rw [Option.map_eq_none'] at h
      have hne : (parseRaw up_limit down_limit rows).1 ≠ [] := by
        intro hnil
        rw [hnil] at h
        simp [normalizeData] at h
      unfold parseRaw at hne
      have hnall : ¬(∀ row ∈ rows, ∀ p ∈ row.2,
          ¬(up_limit ≤ p.1 ∧ p.1 ≤ down_limit)) := by
        intro hall
        exact hne ((foldRows_nil_iff up_limit down_limit rows ([], 0)).mpr ⟨rfl, hall⟩)
      push_neg at hnall
      exact hnall
    · rintro ⟨row, hrow, p, hp, hin⟩
      have hne : (parseRaw up_limit down_limit rows).1 ≠ [] := by
        unfold parseRaw
        rw [Ne, foldRows_nil_iff]
        rintro ⟨-, hall⟩
        exact hall row hrow p hp hin
      rw [normalizeData_zero_none _ hne]
      rfl

theorem cpm_zero_guard_witness :
    (parse_results ((5 : Int), [("chr1_+_10", [(2, 3)])]) (-10) 10).isSome ∧
    parse_results ((0 : Int), [("chr1_+_10", [(2, 3)])]) (-10) 10 = none :=
  ⟨(cpm_zero_guard [("chr1_+_10", [(2, 3)])] (-10) 10).1 5 (by decide),
    (cpm_zero_guard [("chr1_+_10", [(2, 3)])] (-10) 10).2.mpr
      ⟨("chr1_+_10", [(2, 3)]), List.mem_cons_self _ _, (2, 3),
        List.mem_cons_self _ _, by decide⟩⟩

end ICount
